import Mathlib

/-!
Verification development for the ufcstats-scraper pipeline.

The Python sources are shallowly embedded as executable Lean functions:
strings are Lean `String` / `List Char`, pandas per-cell operations become
per-cell functions, dataframe pipelines become list pipelines, and code
that can raise returns `Except`.  Whitespace is modelled as the ASCII
whitespace characters plus U+00A0 (the only non-ASCII whitespace the
sources mention explicitly); other exotic Unicode spaces are out of model.
-/

/-- Whitespace predicate used by Python `str.strip` / `str.split` and the
pandas regex `\s` as they occur in this codebase (ASCII whitespace plus
the non-breaking space U+00A0). -/
def isSpaceC (c : Char) : Bool :=
  c == ' ' || c == '\t' || c == '\n' || c == '\r' || c == '\u000b' || c == '\u000c' || c == ' '

/-- Drop elements from the end of the list while they satisfy `p`. -/
def trimEnd (p : Char → Bool) (l : List Char) : List Char :=
  (l.reverse.dropWhile p).reverse

/-- Python `str.strip()` on the character list: drop whitespace at both ends. -/
def stripL (l : List Char) : List Char :=
  trimEnd isSpaceC (l.dropWhile isSpaceC)

/-- Python `str.strip()`. -/
def pyStrip (s : String) : String :=
  ⟨stripL s.data⟩

/-- Boolean prefix test on character lists. -/
def startsWithL : List Char → List Char → Bool
  | [], _ => true
  | _ :: _, [] => false
  | p :: ps, c :: cs => p == c && startsWithL ps cs

/-- Boolean contiguous-substring test on character lists. -/
def containsSeq (pat : List Char) : List Char → Bool
  | [] => startsWithL pat []
  | c :: cs => startsWithL pat (c :: cs) || containsSeq pat cs

/-- ASCII uppercase map modelling Python `str.upper()` on the characters
this pipeline compares (ASCII letters). -/
def upperL (l : List Char) : List Char := l.map Char.toUpper

/-- ASCII lowercase map modelling Python `str.lower()`. -/
def lowerL (l : List Char) : List Char := l.map Char.toLower

/-- The word list of a string: maximal runs of non-whitespace, as produced
by Python `str.split()` with no separator. -/
def wordsL (l : List Char) : List (List Char) :=
  (l.splitOnP (fun c => isSpaceC c)).filter (fun w => !w.isEmpty)

/-- `clean_text` from `ufcstats/parse_event_details.py` and the pandas
`_clean_text_series` used by every builder: replace NBSP by a space,
collapse whitespace runs to one space, trim the ends.  Both reduce to
joining the whitespace-separated words with single spaces. -/
def cleanL (l : List Char) : List Char :=
  List.intercalate [' '] (wordsL l)

/-- `clean_text` / `_clean_text_series` on `String`. -/
def cleanCell (s : String) : String :=
  ⟨cleanL s.data⟩

/-! ### URL canonicalization (`ufcstats/net.py` and `scripts/build/build_dim_fighter.py`) -/

/-- The four scheme/host spellings recognised by `normalize_ufcstats_url`,
in the order the source checks them. -/
def hostA : List Char := "https://ufcstats.com".data
def hostB : List Char := "http://ufcstats.com".data
def hostC : List Char := "https://www.ufcstats.com".data
def hostD : List Char := "http://www.ufcstats.com".data

/-- `normalize_ufcstats_url` from `ufcstats/net.py` on character lists:
strip the input; empty stays empty; if it starts with one of the four
host spellings, graft the remainder onto `base`; otherwise return the
stripped input. -/
def normL (url base : List Char) : List Char :=
  let s := stripL url
  if s.isEmpty then s
  else if startsWithL hostA s then base ++ s.drop hostA.length
  else if startsWithL hostB s then base ++ s.drop hostB.length
  else if startsWithL hostC s then base ++ s.drop hostC.length
  else if startsWithL hostD s then base ++ s.drop hostD.length
  else s

/-- `normalize_ufcstats_url(url, base)` from `ufcstats/net.py`. -/
def normalizeUfcstatsUrl (url base : String) : String :=
  ⟨normL url.data base.data⟩

/-- The two www host patterns (with the mandatory trailing slash) of the
first regex in `_normalize_ufcstats_url_series`. -/
def wwwHttps : List Char := "https://www.ufcstats.com/".data
def wwwHttp : List Char := "http://www.ufcstats.com/".data
/-- The two bare host patterns of the second regex. -/
def bareHttps : List Char := "https://ufcstats.com/".data
def bareHttp : List Char := "http://ufcstats.com/".data
/-- The replacement (canonical) scheme+host+slash. -/
def canonHost : List Char := "http://ufcstats.com/".data

/-- First regex of `_normalize_ufcstats_url_series`:
`^https?://www\.ufcstats\.com/` ↦ `http://ufcstats.com/`. -/
def rwWww (l : List Char) : List Char :=
  if startsWithL wwwHttps l then canonHost ++ l.drop wwwHttps.length
  else if startsWithL wwwHttp l then canonHost ++ l.drop wwwHttp.length
  else l

/-- Second regex of `_normalize_ufcstats_url_series`:
`^https?://ufcstats\.com/` ↦ `http://ufcstats.com/`. -/
def rwBare (l : List Char) : List Char :=
  if startsWithL bareHttps l then canonHost ++ l.drop bareHttps.length
  else if startsWithL bareHttp l then canonHost ++ l.drop bareHttp.length
  else l

/-- Third regex of `_normalize_ufcstats_url_series`: `/+$` ↦ `` (drop all
trailing slashes). -/
def dropTrailSlash (l : List Char) : List Char :=
  trimEnd (fun c => c == '/') l

/-- `_normalize_ufcstats_url_series` from `scripts/build/build_dim_fighter.py`,
per cell: clean the text, rewrite the scheme/host variants onto the
canonical host, drop trailing slashes. -/
def canonSeriesL (l : List Char) : List Char :=
  dropTrailSlash (rwBare (rwWww (cleanL l)))

/-- `_normalize_ufcstats_url_series` per cell, on `String`. -/
def canonSeries (s : String) : String :=
  ⟨canonSeriesL s.data⟩

/-! ### Event-details page parser (`ufcstats/parse_event_details.py`)

The HTML is embedded at the level BeautifulSoup delivers it to the parser:
a table cell is the list of its stripped, non-empty text-node strings (so
`get_text(sep, strip=True)` is joining them with `sep`), and the anchors
the code selects are carried alongside. -/

/-- A table cell: the stripped non-empty text nodes, in document order. -/
abbrev CellM := List String

/-- An `<a>` element as the parser reads it: its `get_text(" ", strip=True)`
text and its `href` attribute (`.get("href", "")` folds a missing
attribute to `""`). -/
structure Anchor where
  text : String
  href : String
deriving Repr, DecidableEq

/-- One `tbody tr` of the bout table, restricted to what the parser
inspects: the `td` cells, the first `a[href*="fight-details"]` anchor's
href (if any such anchor exists), and the `a[href*="fighter-details"]`
anchors inside `tds[1]`. -/
structure TrRow where
  tds : List CellM
  boutHref : Option String
  fighterAnchors : List Anchor
deriving Repr, DecidableEq

/-- `td.get_text(" ", strip=True)` followed by `clean_text`. -/
def cellText (c : CellM) : String :=
  cleanCell (String.intercalate " " c)

/-- `_two_lines`: split the newline-joined cell text on newlines, clean
each part, drop empties; first part is fighter 1, second fighter 2. -/
def twoLines (c : CellM) : String × String :=
  let parts := (((String.intercalate "\n" c).data.splitOnP (fun ch => ch == '\n')).map
      (fun l => cleanCell ⟨l⟩)).filter (fun s => s ≠ "")
  match parts with
  | a :: b :: _ => (a, b)
  | [a] => (a, "")
  | [] => ("", "")

/-- `_parse_wl`: uppercase the cell text and look for the badge substrings
with precedence WIN > LOSS > DRAW > NC. -/
def parseWl (c : CellM) : String :=
  let txt := upperL (cellText c).data
  if containsSeq "WIN".data txt then "win"
  else if containsSeq "LOSS".data txt then "loss"
  else if containsSeq "DRAW".data txt then "draw"
  else if containsSeq "NC".data txt || containsSeq "NO CONTEST".data txt then "nc"
  else ""

/-- One bout record as returned by `parse_event_details_html` (all raw
strings). -/
structure BoutRec where
  bout_url : String
  bout_order : String
  fighter_1_name : String
  fighter_1_url : String
  fighter_1_result : String
  fighter_2_name : String
  fighter_2_url : String
  fighter_2_result : String
  kd_1 : String
  str_1 : String
  td_1 : String
  sub_1 : String
  kd_2 : String
  str_2 : String
  td_2 : String
  sub_2 : String
  weight_class_raw : String
  method_raw : String
  round_raw : String
  time_raw : String
deriving Repr, DecidableEq

/-- `tds[i]` access; the source indexes only below the length guard, so
the default is never reached on guarded paths. -/
def getCell (tds : List CellM) (i : Nat) : CellM := tds.getD i []

/-- The bout-row loop of `parse_event_details_html` (lines 104-168):
`cnt` is the running `bout_order` counter.  Rows with fewer than 10 cells
are skipped before the counter; rows without a usable bout anchor are
skipped before the counter; the counter is incremented as soon as the
anchor check passes, BEFORE the fighter-anchor check, so a row failing
that later check still consumes a counter value. -/
def parseBoutsAux (base : String) : List TrRow → Nat → List BoutRec
  | [], _ => []
  | tr :: rest, cnt =>
    if tr.tds.length < 10 then parseBoutsAux base rest cnt
    else
      let bout_url := match tr.boutHref with
        | none => ""
        | some h => normalizeUfcstatsUrl h base
      if bout_url = "" then parseBoutsAux base rest cnt
      else
        let cnt1 := cnt + 1
        let r1 := parseWl (getCell tr.tds 0)
        let r2 := if r1 = "win" then "loss" else ""
        if tr.fighterAnchors.length < 2 then parseBoutsAux base rest cnt1
        else
          let a1 := tr.fighterAnchors.getD 0 ⟨"", ""⟩
          let a2 := tr.fighterAnchors.getD 1 ⟨"", ""⟩
          let kd := twoLines (getCell tr.tds 2)
          let st := twoLines (getCell tr.tds 3)
          let td := twoLines (getCell tr.tds 4)
          let sb := twoLines (getCell tr.tds 5)
          { bout_url := bout_url
            bout_order := Nat.repr cnt1
            fighter_1_name := cleanCell a1.text
            fighter_1_url := normalizeUfcstatsUrl a1.href base
            fighter_1_result := r1
            fighter_2_name := cleanCell a2.text
            fighter_2_url := normalizeUfcstatsUrl a2.href base
            fighter_2_result := r2
            kd_1 := kd.1, str_1 := st.1, td_1 := td.1, sub_1 := sb.1
            kd_2 := kd.2, str_2 := st.2, td_2 := td.2, sub_2 := sb.2
            weight_class_raw := cellText (getCell tr.tds 6)
            method_raw := cellText (getCell tr.tds 7)
            round_raw := cellText (getCell tr.tds 8)
            time_raw := cellText (getCell tr.tds 9) } :: parseBoutsAux base rest cnt1

/-- The event-details page as the parser sees it: the title heading text
(if present), the `b-list__box-list-item` texts, and the bout table's
`tbody tr` rows (`none` when no table element is found at all). -/
structure EventDoc where
  title : Option String
  listItems : List String
  table : Option (List TrRow)

/-- `event_meta` of `parse_event_details_html`. -/
structure EventMeta where
  event_name : String
  event_date_raw : String
  event_location_raw : String
deriving Repr, DecidableEq

/-- The characters after the first `:` (Python `txt.split(":", 1)[1]`;
only evaluated under the guard that guarantees a colon). -/
def afterFirstColon (l : List Char) : List Char :=
  (l.dropWhile (fun c => !(c == ':'))).drop 1

/-- `_extract_labeled_value`: first list item whose cleaned text starts
(case-insensitively) with `label:`, cleaned value after the colon. -/
def extractLabeledValue (items : List String) (label : String) : String :=
  match items.find? (fun it =>
      startsWithL (lowerL (label.data ++ [':'])) (lowerL (cleanCell it).data)) with
  | some it => cleanCell ⟨afterFirstColon (cleanCell it).data⟩
  | none => ""

/-- `parse_event_details_html(html, base_url)`: event meta from the title
and labeled list items; bouts from the table rows (empty when no table). -/
def parseEventDetailsHtml (doc : EventDoc) (base : String) : EventMeta × List BoutRec :=
  let name := match doc.title with
    | some t => cleanCell t
    | none => ""
  let meta : EventMeta :=
    { event_name := name
      event_date_raw := extractLabeledValue doc.listItems "Date"
      event_location_raw := extractLabeledValue doc.listItems "Location" }
  match doc.table with
  | none => (meta, [])
  | some rows => (meta, parseBoutsAux base rows 0)

/-! ### dim_event builder (`scripts/build/build_dim_event.py`) -/

/-- Keep the first row for each key, in input order (pandas
`drop_duplicates(keep="first")`). -/
def dedupFirstByAux (key : α → String) : List α → List String → List α
  | [], _ => []
  | a :: rest, seen =>
    if key a ∈ seen then dedupFirstByAux key rest seen
    else a :: dedupFirstByAux key rest (key a :: seen)

/-- `drop_duplicates(subset=[key], keep="first")`. -/
def dedupFirstBy (key : α → String) (l : List α) : List α :=
  dedupFirstByAux key l []

/-- The UFC name classifier of `build_dim_event` (line 62-63): uppercased
name starts with `"UFC "` or contains `"UFC FIGHT NIGHT"`. -/
def isUfcNameB (name : String) : Bool :=
  startsWithL "UFC ".data (upperL name.data) ||
    containsSeq "UFC FIGHT NIGHT".data (upperL name.data)

/-- One row of the raw event-directory CSV (all strings). -/
structure EventDirRow where
  event_url : String
  event_name : String
  event_date_raw : String
  event_location_raw : String
deriving Repr, DecidableEq

/-- One output row of dim_event. -/
structure DimEventRow where
  event_url : String
  event_name : String
  event_date_raw : String
  event_location_raw : String
  is_ufc : Bool
deriving Repr, DecidableEq

/-- `build_dim_event` on the row list: clean every text field, drop rows
with empty name or URL, classify `is_ufc` from the cleaned name,
deduplicate on `event_url` keeping the first occurrence. -/
def buildDimEvent (rows : List EventDirRow) : List DimEventRow :=
  let cleaned := rows.map (fun r =>
    { event_url := cleanCell r.event_url
      event_name := cleanCell r.event_name
      event_date_raw := cleanCell r.event_date_raw
      event_location_raw := cleanCell r.event_location_raw : EventDirRow })
  let kept := (cleaned.filter (fun r => r.event_name ≠ "")).filter (fun r => r.event_url ≠ "")
  let flagged := kept.map (fun r =>
    { event_url := r.event_url
      event_name := r.event_name
      event_date_raw := r.event_date_raw
      event_location_raw := r.event_location_raw
      is_ufc := isUfcNameB r.event_name : DimEventRow })
  dedupFirstBy (fun r => r.event_url) flagged

/-! ### fact_bout numeric coercion (`_to_int_series`, `scripts/build/build_fact_bout.py` lines 44-47)

`pd.to_numeric(errors="coerce")` is modelled in two stages.  The parse
stage (`pdToNumeric`) computes the EXACT rational value of the literal,
before any dtype conversion.  The cast stage (`toIntCell`) models
`.astype("Int64")` on top of pandas dtype promotion: the series dtype
after `to_numeric` depends on the WHOLE column (int64 when every cell is
an int64 literal, uint64 on int64 overflow, float64 as soon as any cell
is NA or a float — and the `replace({"": pd.NA, "--": pd.NA})` step
routinely forces the float64 path), so a per-cell model can return a
definite answer only where every promotion path agrees:
* integral values with magnitude below `2^53` are exact in the int64,
  uint64 and float64 paths alike, and the cast succeeds;
* NaN (unparseable or NA) becomes null in every path;
* infinities and values guaranteed to round to a non-integral float64
  make the unsafe-cast check raise
  ("cannot safely cast non-equivalent float64 to int64") in every path;
* everything else (integral magnitudes `≥ 2^53`, fractions too close to
  an integer for the guards) is context-dependent — e.g.
  `"9007199254740993"` is exact via int64 in an all-integer column but
  rounds via float64 when a blank forces the float path, and
  `"9223372036854775808"` overflows the Int64 cast — and the per-cell
  model abstains (`CastOut.ctxDependent`). -/

/-- The result of `pd.to_numeric(·, errors="coerce")` on one cell. -/
inductive PdVal where
  | num (q : Rat)
  | nan
  | inf
deriving Repr, DecidableEq

/-- ASCII decimal digit, spelled as an enumeration (identical in meaning
to `Char.isDigit`). -/
def isDigitC (c : Char) : Bool :=
  c == '0' || c == '1' || c == '2' || c == '3' || c == '4' ||
    c == '5' || c == '6' || c == '7' || c == '8' || c == '9'

/-- Base-10 value of a digit list. -/
def natOfDigits (l : List Char) : Nat :=
  l.foldl (fun acc c => 10 * acc + (c.toNat - '0'.toNat)) 0

/-- Mantissa/exponent to rational: `±(m / 10^frac) · 10^ex`, written as a
single normalized integer fraction so that it evaluates by computation. -/
def mkRatVal (neg : Bool) (m : Nat) (frac : Nat) (ex : Int) : Rat :=
  let sgn : Int := if neg then -1 else 1
  match ex - (frac : Int) with
  | .ofNat k => Rat.divInt (sgn * (m : Int) * ((10 ^ k : Nat) : Int)) 1
  | .negSucc k => Rat.divInt (sgn * (m : Int)) ((10 ^ (k + 1) : Nat) : Int)

/-- Optional exponent part of a float literal; anything trailing makes the
whole literal unparseable (NaN under `errors="coerce"`). -/
def parseExpPart (neg : Bool) (m : Nat) (frac : Nat) (rest : List Char) : PdVal :=
  match rest with
  | [] => .num (mkRatVal neg m frac 0)
  | e :: r4 =>
    if e == 'e' || e == 'E' then
      let (esgn, r5) : Int × List Char := match r4 with
        | '+' :: r5 => (1, r5)
        | '-' :: r5 => (-1, r5)
        | _ => (1, r4)
      if !r5.isEmpty && r5.all isDigitC then
        .num (mkRatVal neg m frac (esgn * (natOfDigits r5 : Int)))
      else .nan
    else .nan

/-- Unsigned part of a Python numeric literal: `inf`/`infinity`, `nan`,
or digits with optional fraction and exponent. -/
def parseUnsigned (neg : Bool) (r : List Char) : PdVal :=
  if lowerL r = "inf".data || lowerL r = "infinity".data then .inf
  else if lowerL r = "nan".data then .nan
  else
    let (d1, r1) := r.span isDigitC
    match r1 with
    | '.' :: r2 =>
      let (d2, r3) := r2.span isDigitC
      if d1.isEmpty && d2.isEmpty then .nan
      else parseExpPart neg (natOfDigits (d1 ++ d2)) d2.length r3
    | _ =>
      if d1.isEmpty then .nan
      else parseExpPart neg (natOfDigits d1) 0 r1

/-- `pd.to_numeric(cell, errors="coerce")`: optional sign, then the
unsigned literal; unparseable text coerces to NaN. -/
def pdToNumeric (l : List Char) : PdVal :=
  match l with
  | [] => parseUnsigned false []
  | c :: r =>
    if c == '+' then parseUnsigned false r
    else if c == '-' then parseUnsigned true r
    else parseUnsigned false (c :: r)

deriving instance DecidableEq for Except

/-- `n` is a power of two. -/
def isPow2 (n : Nat) : Bool :=
  n != 0 && Nat.land n (n - 1) == 0

/-- Sufficient (sound) conditions under which the exact value `q` of a
parsed literal rounds to a NON-integral float64 in every promotion path,
so that `astype("Int64")` raises: either `q` is a dyadic rational that
float64 represents exactly (mantissa below `2^53`, denominator a power of
two at most `2^60`, so no underflow) and is not an integer; or `|q| <
2^50` — where correctly-rounded parsing errs by at most `ulp/2 ≤ 1/8` —
and `q` is farther than `1/8` from every integer. -/
def floatNonIntegral (q : Rat) : Bool :=
  q.num.natAbs < 2 ^ 53 &&
    ((isPow2 q.den && decide (q.den ≤ 2 ^ 60)) ||
      (q.num.natAbs < 2 ^ 50 &&
        decide (q.den < 8 * (q.num.natAbs % q.den)) &&
        decide (q.den < 8 * (q.den - q.num.natAbs % q.den))))

/-- Per-cell outcome of `.astype("Int64")`: a definite value/null, a
definite raise, or a result the per-cell model leaves undetermined
because it depends on the surrounding column's dtype promotion. -/
inductive CastOut where
  | ok (v : Option Int)
  | raise
  | ctxDependent
deriving Repr, DecidableEq

/-- `_to_int_series` per cell: clean, map `""` and `"--"` to null, then
`pd.to_numeric(errors="coerce").astype("Int64")`.  `CastOut.raise` marks
the cells on which the `astype` raises in every promotion path;
`CastOut.ctxDependent` marks the cells whose result the surrounding
column decides (see the section comment). -/
def toIntCell (s : String) : CastOut :=
  let t := cleanCell s
  if t = "" || t = "--" then .ok none
  else match pdToNumeric t.data with
    | .nan => .ok none
    | .inf => .raise
    | .num q =>
      if q.den = 1 then
        if q.num.natAbs < 2 ^ 53 then .ok (some q.num) else .ctxDependent
      else if floatNonIntegral q then .raise
      else .ctxDependent


/-! ### dim_fighter flags (`scripts/build/build_dim_fighter.py`) -/

/-- `is_ufc` truthiness of `_build_flags_from_fact_bout` (lines 83-89):
strip, lowercase, membership in the accepted set. -/
def truthyIsUfc (s : String) : Bool :=
  let t : List Char := lowerL (stripL s.data)
  t = "1".data || t = "true".data || t = "t".data || t = "yes".data || t = "y".data

/-- Women-division flag (lines 92-96): weight-class text contains
`"women"` case-insensitively. -/
def womenFlag (s : String) : Bool :=
  containsSeq "women".data (lowerL s.data)

/-- The fact_bout columns `_build_flags_from_fact_bout` reads. -/
structure FactBoutRow where
  is_ufc : String
  weight_class_raw : String
  fighter_1_url : String
  fighter_2_url : String
deriving Repr, DecidableEq

/-- One per-fighter participation row of the reshaped long frame:
canonicalized fighter URL, the bout's UFC truthiness, the bout's
women-division flag. -/
structure PartRow where
  fighter_url : String
  is_ufc_bout : Bool
  is_female_bout : Bool
deriving Repr, DecidableEq

/-- The long frame (lines 98-115): fighter-1 rows then fighter-2 rows,
with empty canonical URLs dropped. -/
def longRows (bouts : List FactBoutRow) : List PartRow :=
  ((bouts.map (fun b =>
      { fighter_url := canonSeries b.fighter_1_url
        is_ufc_bout := truthyIsUfc b.is_ufc
        is_female_bout := womenFlag b.weight_class_raw : PartRow })) ++
    (bouts.map (fun b =>
      { fighter_url := canonSeries b.fighter_2_url
        is_ufc_bout := truthyIsUfc b.is_ufc
        is_female_bout := womenFlag b.weight_class_raw : PartRow }))).filter
    (fun p => p.fighter_url ≠ "")

/-- The participation rows of one fighter, in frame order (pandas groupby
keeps the within-group order stable). -/
def partsOf (bouts : List FactBoutRow) (u : String) : List PartRow :=
  (longRows bouts).filter (fun p => p.fighter_url = u)

/-- `_mode_bool` (lines 123-129) on a group's flags: the most frequent
value; on a tie, `value_counts` puts the first-encountered value first,
which for a two-valued column is the list head.  Empty group gives NA. -/
def modeBool (l : List Bool) : Option Bool :=
  match l with
  | [] => none
  | h :: _ =>
    let ct := l.countP (fun b => b = true)
    let cf := l.countP (fun b => b = false)
    if cf < ct then some true
    else if ct < cf then some false
    else some h

/-- Bool to the 0/1 integer encoding of `_to_int64_bool`. -/
def b2i (b : Bool) : Int := if b then 1 else 0

/-- The flag derivation of `build_dim_fighter` restricted to the three
output columns the flags affect: directory keys are canonicalized
(line 163), cleaned again (line 176), empties dropped (line 180), deduped
first-wins (line 184); the left merge with the grouped flags (line 206)
gives each key its group's `any` and mode, and the `fillna(0)` default
(lines 208-216) turns both flags of bout-less fighters into 0.  The
fighter-details join is key-preserving after its dedup and touches
neither flag column, so it is omitted here. -/
def buildDimFighterFlags (dirUrls : List String) (bouts : List FactBoutRow) :
    List (String × Int × Int) :=
  let keys := dedupFirstBy id
    ((dirUrls.map (fun u => cleanCell (canonSeries u))).filter (fun u => u ≠ ""))
  keys.map (fun u =>
    if (longRows bouts).any (fun p => p.fighter_url = u) then
      (u, b2i ((partsOf bouts u).any (fun p => p.is_ufc_bout)),
        match modeBool ((partsOf bouts u).map (fun p => p.is_female_bout)) with
        | some b => b2i b
        | none => 0)
    else (u, 0, 0))

/-! ### fact_bout `is_ufc` derivation (`scripts/build/build_fact_bout.py` lines 93-143)

Only the columns feeding the `is_ufc` derivation are modelled; the
numeric coercions and the fixed output ordering are independent of it.
`none` stands for a pandas NaN (a missing value, serialized blank). -/

/-- The raw event-details columns that feed the `is_ufc` column. -/
structure RawForFact where
  bout_url : String
  event_url : String
  event_name : String
deriving Repr, DecidableEq

/-- `_infer_is_ufc_from_name` per cell (lines 50-52): clean, uppercase,
same name test as dim_event. -/
def inferIsUfcName (s : String) : Bool :=
  isUfcNameB (cleanCell s)

/-- `str(bool)` as pandas `astype(str)` renders the inferred flag. -/
def pyBoolStr (b : Bool) : String := if b then "True" else "False"

/-- The fallback mask `df["is_ufc"].isin(["", "nan", "None"])` (line 138):
a true NaN (unmatched left join) is NOT in the list, so it never selects
the fallback — the bug site. -/
def isUfcFallbackMask : Option String → Bool
  | some s => s = "" || s = "nan" || s = "None"
  | none => false

/-- The `is_ufc` slice of `build_fact_bout`: clean the key columns, drop
empty bout URLs, dedup first-wins on bout URL, then derive `is_ufc` per
row.  With a dim_event: left-merge on the cleaned event URL (an unmatched
row gets NaN, several matches duplicate the row, as `pd.merge` does),
then, when the raw input has an `event_name` column, rows whose merged
value passes the mask get the name heuristic.  Without a dim_event: the
heuristic when `event_name` exists, else a blank string. -/
def factBoutIsUfc (rows : List RawForFact) (hasEventName : Bool)
    (dimEv : Option (List (String × String))) : List (RawForFact × Option String) :=
  let rows1 := rows.map (fun r =>
    { bout_url := cleanCell r.bout_url
      event_url := cleanCell r.event_url
      event_name := r.event_name : RawForFact })
  let rows2 := dedupFirstBy (fun r => r.bout_url)
    (rows1.filter (fun r => r.bout_url ≠ ""))
  match dimEv with
  | some de =>
    let de2 := de.map (fun p => (cleanCell p.1, p.2))
    let merged := rows2.flatMap (fun r =>
      let ms := de2.filter (fun p => p.1 = r.event_url)
      if ms.isEmpty then [(r, (none : Option String))]
      else ms.map (fun m => (r, some m.2)))
    if hasEventName then
      merged.map (fun rv =>
        if isUfcFallbackMask rv.2 then (rv.1, some (pyBoolStr (inferIsUfcName rv.1.event_name)))
        else rv)
    else merged
  | none =>
    if hasEventName then
      rows2.map (fun r => (r, some (pyBoolStr (inferIsUfcName r.event_name))))
    else rows2.map (fun r => (r, some ""))

/-! ### Ingestion drivers (`scripts/ingest/ingest_event_details.py`,
`scripts/ingest/ingest_fight_details.py`)

The fetch/parse collaborators are passed in as an oracle mapping a URL to
`none` (fetch or parse failed, caught and skipped) or to the page's
parsed content.  File writes are represented by the returned rows. -/

/-- One seed row of the event-directory CSV as the driver reads it. -/
structure SeedRow where
  event_url : String
  event_name : String
  event_date_raw : String
  event_location_raw : String
deriving Repr, DecidableEq

/-- One output row of the raw event_details snapshot: the injected
context fields plus the parsed bout record (lines 101-117). -/
structure EventDetailsOut where
  snapshot : String
  event_url : String
  event_name : String
  event_date_raw : String
  event_location_raw : String
  bout : BoutRec
deriving Repr, DecidableEq

/-- Python `a or b`: first operand unless it is falsy (empty string). -/
def orStr (a b : String) : String := if a = "" then b else a

/-- Inner loop body of `ingest_event_details` over one event's parsed
bouts: inject context, compute the dedup key (`bout_url`, else
`event_url__bout_order`), keep unseen keys. -/
def injectBouts (snap eventUrl : String) (ev : SeedRow) (meta : EventMeta) :
    List BoutRec → List String → List EventDetailsOut × List String
  | [], seen => ([], seen)
  | br :: rest, seen =>
    let row : EventDetailsOut :=
      { snapshot := snap
        event_url := eventUrl
        event_name := pyStrip (orStr meta.event_name ev.event_name)
        event_date_raw := pyStrip (orStr meta.event_date_raw ev.event_date_raw)
        event_location_raw := pyStrip (orStr meta.event_location_raw ev.event_location_raw)
        bout := br }
    let boutUrl := pyStrip br.bout_url
    let key := if boutUrl = "" then eventUrl ++ "__" ++ pyStrip br.bout_order else boutUrl
    if key = "" || key ∈ seen then injectBouts snap eventUrl ev meta rest seen
    else
      let (out, seen2) := injectBouts snap eventUrl ev meta rest (key :: seen)
      (row :: out, seen2)

/-- Outer loop of `ingest_event_details`: per seed, normalize the URL,
consult the fetch+parse oracle (`none` = logged per-entity failure,
skipped), accumulate deduplicated bout rows. -/
def eventDetailsLoop (snap base : String)
    (oracle : String → Option (EventMeta × List BoutRec)) :
    List SeedRow → List String → List EventDetailsOut
  | [], _ => []
  | ev :: rest, seen =>
    let url := normalizeUfcstatsUrl (pyStrip ev.event_url) base
    match oracle url with
    | none => eventDetailsLoop snap base oracle rest seen
    | some (meta, bouts) =>
      let (out, seen2) := injectBouts snap url ev meta bouts seen
      out ++ eventDetailsLoop snap base oracle rest seen2

/-- `ingest_event_details` (lines 51-158): filter seeds without a URL,
apply the positive limit, abort when no seeds remain, run the loop, and
abort (`RuntimeError`, line 125-126) when zero bout rows were produced;
otherwise the snapshot rows are written and returned. -/
def ingestEventDetails (seeds : List SeedRow) (limit : Option Nat)
    (snap base : String) (oracle : String → Option (EventMeta × List BoutRec)) :
    Except String (List EventDetailsOut) :=
  let rows0 := seeds.filter (fun s => pyStrip s.event_url ≠ "")
  let rows1 := match limit with
    | some n => if 0 < n then rows0.take n else rows0
    | none => rows0
  if rows1.isEmpty then .error "No event rows found in event directory CSV (missing event_url?)."
  else
    let allBouts := eventDetailsLoop snap base oracle rows1 []
    if allBouts.isEmpty then .error "No bouts parsed. Check site reachability and parser selectors."
    else .ok allBouts

/-- A fight-details row: the parsed dict (field, value) pairs. -/
structure FightRow where
  fields : List (String × String)
deriving Repr, DecidableEq

/-- Drop duplicates of a string list, first occurrence wins. -/
def dedupStr (l : List String) : List String := dedupFirstBy id l

/-- `ingest_fight_details` (`scripts/ingest/ingest_fight_details.py`
lines 61-144): take the limit, dedup fight URLs, take the limit again,
skip URLs in the resume set, fetch each remaining URL (a failed fetch is
caught and skipped — `parse_fight_details` itself never raises), append
each parsed row to the output and count it.  The run ends normally with
the processed count and the appended rows WHATEVER the count is: there is
no zero-yield abort in this driver, and the output file (opened in append
mode before the loop) exists even when nothing was written. -/
def ingestFightDetails (fightUrlCol : List String) (limit : Option Nat)
    (done : List String) (base : String) (oracle : String → Option FightRow) :
    Except String (Nat × List FightRow) :=
  let urls1 := match limit with
    | some n => if n ≠ 0 then fightUrlCol.take n else fightUrlCol
    | none => fightUrlCol
  let urls2 := dedupStr urls1
  let urls3 := match limit with
    | some n => if n ≠ 0 then urls2.take n else urls2
    | none => urls2
  .ok (urls3.foldl (fun acc u =>
    if u ∈ done then acc
    else match oracle (normalizeUfcstatsUrl u base) with
      | none => acc
      | some row => (acc.1 + 1, acc.2 ++ [row])) (0, []))


/-! ### Spec-side companion definitions and concrete inputs -/

/-- A signed base-10 integer literal: optional sign, then only digits. -/
def isIntLit (l : List Char) : Bool :=
  match l with
  | [] => false
  | c :: r =>
    if c == '+' || c == '-' then !r.isEmpty && r.all isDigitC
    else (c :: r).all isDigitC

/-- Value of a signed base-10 integer literal. -/
def intLitVal (l : List Char) : Int :=
  match l with
  | [] => 0
  | c :: r =>
    if c == '-' then -(natOfDigits r : Int)
    else if c == '+' then (natOfDigits r : Int)
    else (natOfDigits (c :: r) : Int)

/-- The spec's UFC-name classification, written from its words: the
uppercased name starts with `"UFC "` or contains `"UFC FIGHT NIGHT"`. -/
def ufcNameSpec (n : String) : Prop :=
  startsWithL "UFC ".data (upperL n.data) = true ∨
    containsSeq "UFC FIGHT NIGHT".data (upperL n.data) = true

instance (n : String) : Decidable (ufcNameSpec n) := by
  unfold ufcNameSpec; infer_instance

/-- The four scheme/host variants, as base URLs. -/
def baseVariants : List String :=
  ["https://ufcstats.com", "http://ufcstats.com",
    "https://www.ufcstats.com", "http://www.ufcstats.com"]

/-- No element of the list satisfies `p` at its last position. -/
def noTailP (p : Char → Bool) (l : List Char) : Prop :=
  ∀ c, l.getLast? = some c → p c = false

/-- `anchorPass base tr`: the row has at least 10 cells and carries a
usable (nonempty, normalized) bout anchor — in the source, exactly the
rows that increment the `bout_order` counter. -/
def anchorPass (base : String) (tr : TrRow) : Bool :=
  if tr.tds.length < 10 then false
  else (match tr.boutHref with
    | none => ""
    | some h => normalizeUfcstatsUrl h base) ≠ ""

/-- Spec-side description of the emitted `bout_order` values: walk the
rows, advance a counter on every anchor-passing row, and emit the counter
value only for the anchor-passing rows that also carry two fighter
anchors. -/
def emittedOrders (base : String) : List TrRow → Nat → List Nat
  | [], _ => []
  | tr :: rest, cnt =>
    if anchorPass base tr then
      if tr.fighterAnchors.length < 2 then emittedOrders base rest (cnt + 1)
      else (cnt + 1) :: emittedOrders base rest (cnt + 1)
    else emittedOrders base rest cnt

/-- `emittedOrders` lifted to a whole document (no table: no bouts). -/
def emittedOrdersDoc (doc : EventDoc) (base : String) : List Nat :=
  match doc.table with
  | none => []
  | some rows => emittedOrders base rows 0

/-- A bout-table row with a valid bout anchor but only ONE fighter
anchor: it passes the anchor check (consuming a counter value) and is
then skipped. -/
def rowOneFighter : TrRow :=
  { tds := List.replicate 10 []
    boutHref := some "http://ufcstats.com/fight-details/gap"
    fighterAnchors := [⟨"Solo Fighter", "http://ufcstats.com/fighter-details/solo"⟩] }

/-- A fully well-formed bout-table row. -/
def rowTwoFighters : TrRow :=
  { tds := List.replicate 10 []
    boutHref := some "http://ufcstats.com/fight-details/keep"
    fighterAnchors := [⟨"Alpha Able", "http://ufcstats.com/fighter-details/a"⟩,
      ⟨"Bravo Baker", "http://ufcstats.com/fighter-details/b"⟩] }

/-- An event-details document whose bout table holds the one-fighter row
followed by the well-formed row. -/
def gapDoc : EventDoc :=
  { title := some "UFC 300"
    listItems := ["Date: April 13, 2024", "Location: Las Vegas, Nevada, USA"]
    table := some [rowOneFighter, rowTwoFighters] }

/-- A well-formed bout-table row marked WIN in its badge cell. -/
def rowWinBadge : TrRow :=
  { rowTwoFighters with tds := ["Win"] :: List.replicate 9 [] }

/-- A fetch/parse oracle that fails on every URL. -/
def noFetchFight : String → Option FightRow := fun _ => none

/-- A parsed bout record used by the driver oracle. -/
def oneBoutRec : BoutRec :=
  { bout_url := "http://ufcstats.com/fight-details/keep"
    bout_order := "1"
    fighter_1_name := "Alpha Able", fighter_1_url := "http://ufcstats.com/fighter-details/a"
    fighter_1_result := "win"
    fighter_2_name := "Bravo Baker", fighter_2_url := "http://ufcstats.com/fighter-details/b"
    fighter_2_result := "loss"
    kd_1 := "0", str_1 := "10", td_1 := "1", sub_1 := "0"
    kd_2 := "1", str_2 := "8", td_2 := "0", sub_2 := "0"
    weight_class_raw := "Lightweight", method_raw := "KO/TKO"
    round_raw := "2", time_raw := "3:15" }

/-- A fetch/parse oracle for the event-details driver returning one
event page with a single bout. -/
def oneBoutOracle : String → Option (EventMeta × List BoutRec) := fun _ =>
  some (⟨"UFC 300", "April 13, 2024", "Las Vegas, Nevada, USA"⟩, [oneBoutRec])

/-- The snapshot row the event-details driver writes for `sampleSeed`
under `oneBoutOracle`. -/
def sampleOutRow : EventDetailsOut :=
  { snapshot := "2024-01-01"
    event_url := "http://ufcstats.com/event-details/e1"
    event_name := "UFC 300"
    event_date_raw := "April 13, 2024"
    event_location_raw := "Las Vegas, Nevada, USA"
    bout := oneBoutRec }

/-- A seed row for the ingestion drivers. -/
def sampleSeed : SeedRow :=
  { event_url := "http://ufcstats.com/event-details/e1"
    event_name := "UFC 300"
    event_date_raw := "April 13, 2024"
    event_location_raw := "Las Vegas, Nevada, USA" }

/-- Failing input for the fact_bout `is_ufc` fallback: one raw row whose
event URL has no dim_event match but whose event name is plainly UFC. -/
def rawRowNoMatch : RawForFact :=
  { bout_url := "http://ufcstats.com/fight-details/x1"
    event_url := "http://ufcstats.com/event-details/e1"
    event_name := "UFC 300" }

/-- A dim_event table that does not contain the raw row's event URL. -/
def dimEvOther : List (String × String) :=
  [("http://ufcstats.com/event-details/OTHER", "True")]

/-- The all-empty bout record (used only as a list-access default in
closed statements). -/
def emptyBout : BoutRec :=
  { bout_url := "", bout_order := "", fighter_1_name := "", fighter_1_url := ""
    fighter_1_result := "", fighter_2_name := "", fighter_2_url := ""
    fighter_2_result := "", kd_1 := "", str_1 := "", td_1 := "", sub_1 := ""
    kd_2 := "", str_2 := "", td_2 := "", sub_2 := ""
    weight_class_raw := "", method_raw := "", round_raw := "", time_raw := "" }

/-- A document with a single well-formed bout row whose badge cell reads
`Win`. -/
def winDoc : EventDoc :=
  { title := some "UFC 300"
    listItems := []
    table := some [rowWinBadge] }

/-- A one-row event-directory input whose name is plainly UFC. -/
def dimEventSampleIn : List EventDirRow :=
  [{ event_url := "http://ufcstats.com/event-details/e1"
     event_name := "UFC 300"
     event_date_raw := "April 13, 2024"
     event_location_raw := "Las Vegas, Nevada, USA" }]

/-- The dim_event row built from `dimEventSampleIn`. -/
def dimEventSampleOut : DimEventRow :=
  { event_url := "http://ufcstats.com/event-details/e1"
    event_name := "UFC 300"
    event_date_raw := "April 13, 2024"
    event_location_raw := "Las Vegas, Nevada, USA"
    is_ufc := true }

/-- The record the parser emits for `winDoc`. -/
def winBout : BoutRec :=
  { bout_url := "http://ufcstats.com/fight-details/keep"
    bout_order := "1"
    fighter_1_name := "Alpha Able", fighter_1_url := "http://ufcstats.com/fighter-details/a"
    fighter_1_result := "win"
    fighter_2_name := "Bravo Baker", fighter_2_url := "http://ufcstats.com/fighter-details/b"
    fighter_2_result := "loss"
    kd_1 := "", str_1 := "", td_1 := "", sub_1 := ""
    kd_2 := "", str_2 := "", td_2 := "", sub_2 := ""
    weight_class_raw := "", method_raw := "", round_raw := "", time_raw := "" }

/-- A fighter URL used by the dim_fighter witness. -/
def fighterUrlW : String := "http://ufcstats.com/fighter-details/a"

/-- A one-entry fighter directory. -/
def dirUrlsW : List String := [fighterUrlW]

/-- A single UFC-flagged women's bout whose fighter-1 side is
`fighterUrlW` (fighter-2 side empty, dropped by the reshape). -/
def boutsW : List FactBoutRow :=
  [{ is_ufc := "True", weight_class_raw := "Women's Strawweight"
     fighter_1_url := fighterUrlW, fighter_2_url := "" }]

/-! ## Claims -/

/-- C1, counterexample: a table whose first row passes the anchor check
but has only one fighter anchor yields a single emitted record whose
`bout_order` is `"2"`, not the claimed contiguous `"1"`: the counter is
incremented before the fighter-anchor check, so the skipped row leaves a
gap. -/
theorem claim_C1_counterexample :
    ((parseEventDetailsHtml gapDoc "http://ufcstats.com").2.map (fun b => b.bout_order)
        = ["2"]) ∧
      (parseEventDetailsHtml gapDoc "http://ufcstats.com").2.length = 1 ∧
      ["2"] ≠ ["1"] := by
  decide

/-- C2, counterexample: `_to_int_series` is not total — on `"3.5"`,
`pd.to_numeric` yields the non-integral 3.5 (exactly representable in
float64, whatever the column dtype) and the `astype("Int64")` raises
instead of producing null. -/
theorem claim_C2_counterexample :
    toIntCell "3.5" = CastOut.raise ∧ toIntCell "3.5" ≠ CastOut.ok none := by
  decide

/-- C4, counterexample: the builder-side series canonicalizer is not
idempotent on every string — dropping the trailing slash of
`"http://ufcstats.com/x /"` exposes a trailing space that only the second
application's cleaning removes. -/
theorem claim_C4_counterexample :
    canonSeries (canonSeries "http://ufcstats.com/x /")
        ≠ canonSeries "http://ufcstats.com/x /" ∧
      canonSeries "http://ufcstats.com/x /" = "http://ufcstats.com/x " := by
  decide

/-- C5, counterexample: `normalize_ufcstats_url` does NOT strip a
trailing slash, so the slashed and unslashed variants of the same
fight-details path produce different keys. -/
theorem claim_C5_counterexample :
    normalizeUfcstatsUrl "https://www.ufcstats.com/fight-details/a/" "http://ufcstats.com"
        = "http://ufcstats.com/fight-details/a/" ∧
      normalizeUfcstatsUrl "https://www.ufcstats.com/fight-details/a/" "http://ufcstats.com"
        ≠ normalizeUfcstatsUrl "https://www.ufcstats.com/fight-details/a" "http://ufcstats.com" := by
  decide

/-- C7, the code at the failing input: with a dim_event supplied that has
no row for the raw row's event URL, the left join leaves a true NaN,
the mask `isin(["", "nan", "None"])` does not select it, and the
name-based fallback never fires even though the event name is plainly
UFC — the output `is_ufc` stays missing (blank), contradicting the
claimed (and comment-documented) fallback for missing rows. -/
theorem claim_C7_code_bug :
    factBoutIsUfc [rawRowNoMatch] true (some dimEvOther) = [(rawRowNoMatch, none)] ∧
      inferIsUfcName "UFC 300" = true ∧
      isUfcFallbackMask none = false := by
  decide

/-- C8, counterexample: the fight-details driver processes one seed URL,
its fetch fails, zero records are produced — and the run ends normally
(`Except.ok` with count 0 and an empty written snapshot) instead of
aborting fatally. -/
theorem claim_C8_counterexample :
    ingestFightDetails ["http://ufcstats.com/fight-details/a"] none []
        "http://ufcstats.com" noFetchFight = Except.ok (0, []) := by
  decide

/-- C10, counterexample: on `" x"` — a string that does not begin with
any of the four host spellings — `normalize_ufcstats_url` returns the
stripped `"x"`, not its input unchanged. -/
theorem claim_C10_counterexample :
    normalizeUfcstatsUrl " x" "http://ufcstats.com" = "x" ∧ "x" ≠ " x" := by
  decide

/-- Every record emitted by the bout-row loop has its `fighter_2_result`
derived from `fighter_1_result` exactly as line 121 writes it. -/
theorem parseBoutsAux_f2 (base : String) (rows : List TrRow) :
    ∀ (cnt : Nat) (b : BoutRec), b ∈ parseBoutsAux base rows cnt →
      b.fighter_2_result = (if b.fighter_1_result = "win" then "loss" else "") := by
  induction rows with
  | nil => intro cnt b h; simp [parseBoutsAux] at h
  | cons tr rest ih =>
    intro cnt b h
    simp only [parseBoutsAux] at h
    split at h
    · exact ih cnt b h
    · split at h
      · exact ih cnt b h
      · split at h
        · exact ih (cnt + 1) b h
        · rcases List.mem_cons.mp h with rfl | h2
          · rfl
          · exact ih (cnt + 1) b h2

/-- The emitted `bout_order` strings are the spec-side emitted counter
values rendered in base 10. -/
theorem parseBoutsAux_orders (base : String) (rows : List TrRow) :
    ∀ cnt : Nat, (parseBoutsAux base rows cnt).map (fun b => b.bout_order)
      = (emittedOrders base rows cnt).map Nat.repr := by
  induction rows with
  | nil => intro cnt; simp [parseBoutsAux, emittedOrders]
  | cons tr rest ih =>
    intro cnt
    by_cases h10 : tr.tds.length < 10
    · have ha : anchorPass base tr = false := by simp [anchorPass, h10]
      simp only [parseBoutsAux, emittedOrders, if_pos h10, ha, Bool.false_eq_true, if_false]
      exact ih cnt
    · by_cases hurl : (match tr.boutHref with
        | none => ""
        | some h => normalizeUfcstatsUrl h base) = ""
      · have ha : anchorPass base tr = false := by simp [anchorPass, h10, hurl]
        simp only [parseBoutsAux, emittedOrders, if_neg h10, if_pos hurl, ha,
          Bool.false_eq_true, if_false]
        exact ih cnt
      · have ha : anchorPass base tr = true := by simp [anchorPass, h10, hurl]
        by_cases h2 : tr.fighterAnchors.length < 2
        · simp only [parseBoutsAux, emittedOrders, if_neg h10, if_neg hurl, ha, if_true,
            if_pos h2]
          exact ih (cnt + 1)
        · simp only [parseBoutsAux, emittedOrders, if_neg h10, if_neg hurl, ha, if_true,
            if_neg h2, List.map_cons]
          rw [ih (cnt + 1)]

/-- C1, amended: the emitted `bout_order` values are the successive
values of a 1-based counter advanced at every row that passes the anchor
check (at least 10 cells and a usable bout anchor), emitted only for the
rows that also carry two fighter anchors — so orders are strictly
increasing in list order, but rows skipped at the fighter-anchor check
consume a value and leave a gap. -/
theorem claim_C1_amended : ∀ (doc : EventDoc) (base : String),
    (parseEventDetailsHtml doc base).2.map (fun b => b.bout_order)
      = (emittedOrdersDoc doc base).map Nat.repr := by
  intro doc base
  rcases htab : doc.table with _ | rows
  · simp [parseEventDetailsHtml, emittedOrdersDoc, htab]
  · simp only [parseEventDetailsHtml, emittedOrdersDoc, htab]
    exact parseBoutsAux_orders base rows 0

/-- C9: in every record returned by `parse_event_details`,
`fighter_2_result` is derived from `fighter_1_result` — `"loss"` when the
latter is `"win"`, else `""`; hence it is never `"win"`, `"draw"` or
`"nc"`, and the two fighters are never both `"win"`. -/
theorem claim_C9 :
    ∀ (doc : EventDoc) (base : String) (b : BoutRec),
      b ∈ (parseEventDetailsHtml doc base).2 →
      (b.fighter_2_result = if b.fighter_1_result = "win" then "loss" else "") ∧
        b.fighter_2_result ≠ "win" ∧ b.fighter_2_result ≠ "draw" ∧
        b.fighter_2_result ≠ "nc" ∧
        ¬(b.fighter_1_result = "win" ∧ b.fighter_2_result = "win") := by
  intro doc base b h
  rcases htab : doc.table with _ | rows
  · simp [parseEventDetailsHtml, htab] at h
  · simp only [parseEventDetailsHtml, htab] at h
    have h2 := parseBoutsAux_f2 base rows 0 b h
    refine ⟨h2, ?_, ?_, ?_, ?_⟩
    · by_cases hw : b.fighter_1_result = "win"
      · rw [h2, if_pos hw]; decide
      · rw [h2, if_neg hw]; decide
    · by_cases hw : b.fighter_1_result = "win"
      · rw [h2, if_pos hw]; decide
      · rw [h2, if_neg hw]; decide
    · by_cases hw : b.fighter_1_result = "win"
      · rw [h2, if_pos hw]; decide
      · rw [h2, if_neg hw]; decide
    · rintro ⟨h1, hwin⟩
      rw [h2, if_pos h1] at hwin
      exact absurd hwin (by decide)

/-- C9, witness: the parser applied to a concrete one-bout document with
a WIN badge emits `winBout`, and the theorem instantiates on it. -/
theorem claim_C9_witness :
    winBout ∈ (parseEventDetailsHtml winDoc "http://ufcstats.com").2 ∧
      (winBout.fighter_2_result
        = if winBout.fighter_1_result = "win" then "loss" else "") :=
  ⟨by decide, (claim_C9 winDoc "http://ufcstats.com" winBout (by decide)).1⟩

/-- Membership in the first-wins dedup is membership in the input. -/
theorem mem_dedupFirstByAux {α : Type} (key : α → String) (l : List α) :
    ∀ (seen : List String) (a : α), a ∈ dedupFirstByAux key l seen → a ∈ l := by
  induction l with
  | nil => intro seen a h; simp [dedupFirstByAux] at h
  | cons x rest ih =>
    intro seen a h
    simp only [dedupFirstByAux] at h
    split at h
    · exact List.mem_cons_of_mem x (ih seen a h)
    · rcases List.mem_cons.mp h with rfl | h2
      · exact List.mem_cons_self _ _
      · exact List.mem_cons_of_mem x (ih _ a h2)

/-- The source classifier agrees with the spec-side wording. -/
theorem isUfcNameB_iff (n : String) : isUfcNameB n = true ↔ ufcNameSpec n := by
  simp [isUfcNameB, ufcNameSpec, Bool.or_eq_true]

/-- C3: every row kept by `build_dim_event` has `is_ufc` true exactly
when its (cleaned) uppercased event name starts with `"UFC "` or contains
`"UFC FIGHT NIGHT"`. -/
theorem claim_C3 : ∀ (rows : List EventDirRow) (r : DimEventRow),
    r ∈ buildDimEvent rows → (r.is_ufc = true ↔ ufcNameSpec r.event_name) := by
  intro rows r h
  simp only [buildDimEvent, dedupFirstBy] at h
  have h3 := mem_dedupFirstByAux _ _ _ _ h
  rcases List.mem_map.mp h3 with ⟨x, _, rfl⟩
  exact isUfcNameB_iff x.event_name

/-- C3, witness: the theorem instantiated on a concrete one-row input. -/
theorem claim_C3_witness :
    dimEventSampleOut ∈ buildDimEvent dimEventSampleIn ∧
      (dimEventSampleOut.is_ufc = true ↔ ufcNameSpec dimEventSampleOut.event_name) :=
  ⟨by decide, claim_C3 dimEventSampleIn dimEventSampleOut (by decide)⟩

/-- C10, amended: for every string whose STRIPPED form does not begin
with one of the four host spellings, `normalize_ufcstats_url` returns the
whitespace-stripped input (hence the input itself whenever it carries no
surrounding whitespace — relative hrefs, foreign hosts, and the empty
string included). -/
theorem claim_C10_amended : ∀ (u base : String),
    startsWithL hostA (pyStrip u).data = false →
    startsWithL hostB (pyStrip u).data = false →
    startsWithL hostC (pyStrip u).data = false →
    startsWithL hostD (pyStrip u).data = false →
    normalizeUfcstatsUrl u base = pyStrip u := by
  intro u base h1 h2 h3 h4
  simp only [pyStrip] at h1 h2 h3 h4
  unfold normalizeUfcstatsUrl normL pyStrip
  by_cases he : (stripL u.data).isEmpty
  · simp [he]
  · simp [he, h1, h2, h3, h4]

/-- C10, amended, witness: instantiated on the relative href
`"/event-details/abc"`. -/
theorem claim_C10_amended_witness :
    startsWithL hostA (pyStrip "/event-details/abc").data = false ∧
      startsWithL hostB (pyStrip "/event-details/abc").data = false ∧
      startsWithL hostC (pyStrip "/event-details/abc").data = false ∧
      startsWithL hostD (pyStrip "/event-details/abc").data = false ∧
      normalizeUfcstatsUrl "/event-details/abc" "http://ufcstats.com"
        = pyStrip "/event-details/abc" :=
  ⟨by decide, by decide, by decide, by decide,
    claim_C10_amended "/event-details/abc" "http://ufcstats.com"
      (by decide) (by decide) (by decide) (by decide)⟩

/-- C8, amended: the event-details driver never returns successfully
with zero records (a run past the seed check that yields nothing aborts
with the fatal `RuntimeError`), but the fight-details driver never
aborts at all — every run, including a zero-record one, ends in
`Except.ok`. -/
theorem claim_C8_amended :
    (∀ (seeds : List SeedRow) (limit : Option Nat) (snap base : String)
        (oracle : String → Option (EventMeta × List BoutRec)) (l : List EventDetailsOut),
        ingestEventDetails seeds limit snap base oracle = Except.ok l → l ≠ []) ∧
      (∀ (col : List String) (limit : Option Nat) (done : List String) (base : String)
        (oracle : String → Option FightRow),
        ∃ r, ingestFightDetails col limit done base oracle = Except.ok r) := by
  constructor
  · intro seeds limit snap base oracle l h
    simp only [ingestEventDetails] at h
    split at h
    · exact absurd h (by simp)
    · split at h
      · exact absurd h (by simp)
      · rename_i hne
        have hl : l = _ := (Except.ok.injEq _ _).mp h.symm
        intro hnil
        rw [hnil] at hl
        rw [← hl] at hne
        simp at hne
  · intro col limit done base oracle
    exact ⟨_, rfl⟩

/-- C8, amended, witness: a concrete one-seed run of the event-details
driver returns one row, and the first conjunct instantiates on it. -/
theorem claim_C8_amended_witness :
    ingestEventDetails [sampleSeed] none "2024-01-01" "http://ufcstats.com" oneBoutOracle
        = Except.ok [sampleOutRow] ∧ [sampleOutRow] ≠ [] :=
  ⟨by decide,
    claim_C8_amended.1 [sampleSeed] none "2024-01-01" "http://ufcstats.com"
      oneBoutOracle [sampleOutRow] (by decide)⟩

/-- `span` of an all-satisfying list takes everything. -/
theorem span_all {p : Char → Bool} {l : List Char} (h : l.all p = true) :
    l.span p = (l, []) := by
  rw [List.span_eq_take_drop,
    List.takeWhile_eq_self_iff.mpr (by simpa [List.all_eq_true] using h),
    List.dropWhile_eq_nil_iff.mpr (by simpa [List.all_eq_true] using h)]

/-- A character passing `isDigitC` is one of the ten digits. -/
theorem digit_cases {c : Char} (h : isDigitC c = true) :
    c = '0' ∨ c = '1' ∨ c = '2' ∨ c = '3' ∨ c = '4' ∨ c = '5' ∨ c = '6' ∨
      c = '7' ∨ c = '8' ∨ c = '9' := by
  simpa [isDigitC, Bool.or_eq_true, beq_iff_eq, or_assoc] using h

/-- A digit string never lowercases to a word starting with a
non-digit-image character. -/
theorem digits_lower_ne_cons {r : List Char} (hall : r.all isDigitC = true) {c : Char}
    (hc : ∀ d, isDigitC d = true → Char.toLower d ≠ c) (cs : List Char) :
    lowerL r ≠ c :: cs := by
  cases r with
  | nil => simp [lowerL]
  | cons a as =>
    have ha : isDigitC a = true := by
      simp only [List.all_cons, Bool.and_eq_true] at hall
      exact hall.1
    simp only [lowerL, List.map_cons]
    intro heq
    exact hc a ha ((List.cons.injEq _ _ _ _).mp heq).1

/-- No digit lowercases to `i`. -/
theorem digit_toLower_ne_i : ∀ d, isDigitC d = true → Char.toLower d ≠ 'i' := by
  intro d hd
  rcases digit_cases hd with rfl|rfl|rfl|rfl|rfl|rfl|rfl|rfl|rfl|rfl <;> decide

/-- No digit lowercases to `n`. -/
theorem digit_toLower_ne_n : ∀ d, isDigitC d = true → Char.toLower d ≠ 'n' := by
  intro d hd
  rcases digit_cases hd with rfl|rfl|rfl|rfl|rfl|rfl|rfl|rfl|rfl|rfl <;> decide

/-- On a nonempty all-digit string the unsigned parser returns the plain
integer value. -/
theorem parseUnsigned_digits (neg : Bool) (r : List Char) (hne : r ≠ [])
    (hall : r.all isDigitC = true) :
    parseUnsigned neg r = .num (mkRatVal neg (natOfDigits r) 0 0) := by
  have hinf : lowerL r ≠ "inf".data := by
    have he : "inf".data = 'i' :: "nf".data := by decide
    rw [he]; exact digits_lower_ne_cons hall digit_toLower_ne_i _
  have hinfty : lowerL r ≠ "infinity".data := by
    have he : "infinity".data = 'i' :: "nfinity".data := by decide
    rw [he]; exact digits_lower_ne_cons hall digit_toLower_ne_i _
  have hnan : lowerL r ≠ "nan".data := by
    have he : "nan".data = 'n' :: "an".data := by decide
    rw [he]; exact digits_lower_ne_cons hall digit_toLower_ne_n _
  have hre : r.isEmpty = false := by
    cases r with
    | nil => exact absurd rfl hne
    | cons a as => rfl
  unfold parseUnsigned
  rw [span_all hall]
  simp [hinf, hinfty, hnan, hre, parseExpPart]

/-- `mkRatVal` with no fraction and no exponent is the integer cast. -/
theorem mkRatVal_int (neg : Bool) (m : Nat) :
    mkRatVal neg m 0 0 = (((if neg then -(m : Int) else (m : Int)) : Int) : Rat) := by
  unfold mkRatVal
  cases neg <;> simp [Rat.divInt_one]

/-- C2, amended: per numeric cell, `""` and `"--"` become null; a signed
base-10 integer literal whose magnitude stays below `2^53` becomes its
value; text `pd.to_numeric` cannot parse becomes null; a parseable
numeric that is guaranteed to be a non-integral float64 (e.g. `"3.5"`)
or an infinity makes `astype("Int64")` raise — the coercion is not
total; and integral magnitudes at or above `2^53` are context-dependent
(exact via int64 in an all-integer column, rounded via float64 when any
blank forces the float path, raising the Int64 cast from `2^63` up), so
the per-cell model abstains there. -/
theorem claim_C2_amended : ∀ s : String,
    ((cleanCell s = "" ∨ cleanCell s = "--") → toIntCell s = CastOut.ok none) ∧
      (isIntLit (cleanCell s).data = true →
        (intLitVal (cleanCell s).data).natAbs < 2 ^ 53 →
        toIntCell s = CastOut.ok (some (intLitVal (cleanCell s).data))) ∧
      (pdToNumeric (cleanCell s).data = PdVal.nan → toIntCell s = CastOut.ok none) ∧
      (∀ q : Rat, pdToNumeric (cleanCell s).data = PdVal.num q → q.den ≠ 1 →
        floatNonIntegral q = true → toIntCell s = CastOut.raise) ∧
      (pdToNumeric (cleanCell s).data = PdVal.inf → toIntCell s = CastOut.raise) ∧
      (∀ q : Rat, pdToNumeric (cleanCell s).data = PdVal.num q → q.den = 1 →
        2 ^ 53 ≤ q.num.natAbs → toIntCell s = CastOut.ctxDependent) := by
  intro s
  refine ⟨?_, ?_, ?_, ?_, ?_, ?_⟩
  · intro h
    unfold toIntCell
    rcases h with h | h <;> simp [h]
  · intro hlit hmag
    rcases hd : (cleanCell s).data with _ | ⟨c, r⟩
    · rw [hd] at hlit; exact absurd hlit (by decide)
    · rw [hd] at hlit hmag
      have hne1 : cleanCell s ≠ "" := by
        intro hE; rw [hE] at hd; simp at hd
      by_cases hplus : c = '+'
      · subst hplus
        have hne2 : cleanCell s ≠ "--" := by
          intro hE
          rw [hE, show "--".data = '-' :: ['-'] from rfl] at hd
          injection hd with h1 _
          exact absurd h1 (by decide)
        simp only [isIntLit, show (('+' == '+') || ('+' == '-')) = true from rfl, if_true,
          Bool.and_eq_true, Bool.not_eq_true'] at hlit
        obtain ⟨hre, hall⟩ := hlit
        have hrne : r ≠ [] := by cases r <;> simp_all
        simp only [intLitVal, show ('+' == '-') = false from rfl,
          show ('+' == '+') = true from rfl, Bool.false_eq_true, if_false, if_true,
          Int.natAbs_ofNat] at hmag
        simp only [toIntCell]
        rw [hd]
        simp only [pdToNumeric, show ('+' == '+') = true from rfl, if_true]
        norm_num at hmag
        rw [parseUnsigned_digits false r hrne hall, mkRatVal_int]
        simp [hne1, hne2, Rat.den_intCast, Rat.num_intCast, intLitVal, hmag]
      · by_cases hminus : c = '-'
        · subst hminus
          simp only [isIntLit, show (('-' == '+') || ('-' == '-')) = true from rfl, if_true,
            Bool.and_eq_true, Bool.not_eq_true'] at hlit
          obtain ⟨hre, hall⟩ := hlit
          have hrne : r ≠ [] := by cases r <;> simp_all
          have hne2 : cleanCell s ≠ "--" := by
            intro hE
            rw [hE, show "--".data = '-' :: ['-'] from rfl] at hd
            injection hd with _ h2
            rw [← h2] at hall
            exact absurd hall (by decide)
          simp only [intLitVal, show ('-' == '-') = true from rfl, if_true,
            Int.natAbs_neg, Int.natAbs_ofNat] at hmag
          simp only [toIntCell]
          rw [hd]
          simp only [pdToNumeric, show ('-' == '+') = false from rfl,
            show ('-' == '-') = true from rfl, if_false, if_true, Bool.false_eq_true]
          norm_num at hmag
          rw [parseUnsigned_digits true r hrne hall, mkRatVal_int]
          simp [hne1, hne2, Rat.den_intCast, Rat.num_intCast, intLitVal, hmag]
        · have hsign : (c == '+' || c == '-') = false := by
            simp [hplus, hminus]
          simp only [isIntLit, hsign, Bool.false_eq_true, if_false] at hlit
          have hc : isDigitC c = true := by
            simp only [List.all_cons, Bool.and_eq_true] at hlit
            exact hlit.1
          have hne2 : cleanCell s ≠ "--" := by
            intro hE
            rw [hE, show "--".data = '-' :: ['-'] from rfl] at hd
            injection hd with h1 _
            rw [← h1] at hminus
            exact hminus rfl
          have hbp : (c == '+') = false := by simp [hplus]
          have hbm : (c == '-') = false := by simp [hminus]
          simp only [intLitVal, hbp, hbm, Bool.false_eq_true, if_false,
            Int.natAbs_ofNat] at hmag
          simp only [toIntCell]
          rw [hd]
          simp only [pdToNumeric, hbp, hbm, Bool.false_eq_true, if_false]
          norm_num at hmag
          rw [parseUnsigned_digits false (c :: r) (by simp) hlit, mkRatVal_int]
          simp only [intLitVal, hbp, hbm, Bool.false_eq_true, if_false]
          simp [hne1, hne2, Rat.den_intCast, Rat.num_intCast, hmag]
  · intro hnan
    unfold toIntCell
    by_cases h1 : cleanCell s = ""
    · simp [h1]
    · by_cases h2 : cleanCell s = "--"
      · simp [h2]
      · simp [h1, h2, hnan]
  · intro q hq hden hfni
    by_cases h1 : cleanCell s = ""
    · rw [h1] at hq
      rw [show pdToNumeric "".data = PdVal.nan from by decide] at hq
      simp at hq
    · by_cases h2 : cleanCell s = "--"
      · rw [h2] at hq
        rw [show pdToNumeric "--".data = PdVal.nan from by decide] at hq
        simp at hq
      · unfold toIntCell
        simp [h1, h2, hq, hden, hfni]
  · intro hinf
    by_cases h1 : cleanCell s = ""
    · rw [h1] at hinf
      rw [show pdToNumeric "".data = PdVal.nan from by decide] at hinf
      simp at hinf
    · by_cases h2 : cleanCell s = "--"
      · rw [h2] at hinf
        rw [show pdToNumeric "--".data = PdVal.nan from by decide] at hinf
        simp at hinf
      · unfold toIntCell
        simp [h1, h2, hinf]
  · intro q hq hden hge
    by_cases h1 : cleanCell s = ""
    · rw [h1] at hq
      rw [show pdToNumeric "".data = PdVal.nan from by decide] at hq
      simp at hq
    · by_cases h2 : cleanCell s = "--"
      · rw [h2] at hq
        rw [show pdToNumeric "--".data = PdVal.nan from by decide] at hq
        simp at hq
      · have hlt : ¬q.num.natAbs < 2 ^ 53 := Nat.not_lt.mpr hge
        norm_num at hlt
        unfold toIntCell
        simp [h1, h2, hq, hden, hlt]

/-- C2, amended, witness: the integer-literal clause instantiated on
`"42"`. -/
theorem claim_C2_amended_witness :
    isIntLit (cleanCell "42").data = true ∧
      (intLitVal (cleanCell "42").data).natAbs < 2 ^ 53 ∧
      toIntCell "42" = CastOut.ok (some (intLitVal (cleanCell "42").data)) :=
  ⟨by decide, by decide, (claim_C2_amended "42").2.1 (by decide) (by decide)⟩

/-- C6: in the flag columns of dim_fighter, a directory fighter with no
participation row in fact_bout gets `is_ufc_fighter = 0` and
`is_female = 0` (not null); a fighter with participation rows gets
`is_ufc_fighter = 1` exactly when some of their rows is UFC-truthy
(case-insensitive membership in 1/true/t/yes/y), and `is_female`
follows the strict majority of their per-bout women flags. -/
theorem claim_C6 : ∀ (dirUrls : List String) (bouts : List FactBoutRow)
    (u : String) (x y : Int),
    (u, x, y) ∈ buildDimFighterFlags dirUrls bouts →
    ((∀ p ∈ longRows bouts, p.fighter_url ≠ u) → x = 0 ∧ y = 0) ∧
      ((∃ p ∈ longRows bouts, p.fighter_url = u) →
        (x = 1 ↔ ∃ p ∈ longRows bouts, p.fighter_url = u ∧ p.is_ufc_bout = true) ∧
          ((((partsOf bouts u).map (fun p => p.is_female_bout)).countP (fun b => b = true) >
              ((partsOf bouts u).map (fun p => p.is_female_bout)).countP (fun b => b = false) →
            y = 1) ∧
            (((partsOf bouts u).map (fun p => p.is_female_bout)).countP (fun b => b = false) >
              ((partsOf bouts u).map (fun p => p.is_female_bout)).countP (fun b => b = true) →
            y = 0))) := by
  intro dirUrls bouts u x y h
  simp only [buildDimFighterFlags] at h
  rcases List.mem_map.mp h with ⟨k, _, hfk⟩
  by_cases hany : (longRows bouts).any (fun p => p.fighter_url = k) = true
  · rw [if_pos hany] at hfk
    obtain ⟨hu, hx, hy⟩ : k = u ∧
        b2i ((partsOf bouts k).any (fun p => p.is_ufc_bout)) = x ∧
        (match modeBool ((partsOf bouts k).map (fun p => p.is_female_bout)) with
          | some b => b2i b
          | none => 0) = y := by
      exact ⟨congrArg Prod.fst hfk, congrArg (fun t => t.2.1) hfk, congrArg (fun t => t.2.2) hfk⟩
    rw [hu] at hany hx hy
    constructor
    · intro hnone
      rcases List.any_eq_true.mp hany with ⟨p, hp, hpu⟩
      exact absurd (of_decide_eq_true hpu) (hnone p hp)
    · intro _
      refine ⟨?_, ?_, ?_⟩
      · rw [← hx]
        constructor
        · intro h1
          have hb : (partsOf bouts u).any (fun p => p.is_ufc_bout) = true := by
            by_contra hb
            rw [Bool.not_eq_true] at hb
            rw [hb] at h1
            exact absurd h1 (by decide)
          rcases List.any_eq_true.mp hb with ⟨p, hp, hpu⟩
          rcases List.mem_filter.mp hp with ⟨hpl, hpeq⟩
          exact ⟨p, hpl, of_decide_eq_true hpeq, hpu⟩
        · rintro ⟨p, hpl, hpeq, hpu⟩
          have : (partsOf bouts u).any (fun p => p.is_ufc_bout) = true :=
            List.any_eq_true.mpr ⟨p, List.mem_filter.mpr ⟨hpl, decide_eq_true hpeq⟩, hpu⟩
          rw [this]
          rfl
      · intro hct
        rcases hl : (partsOf bouts u).map (fun p => p.is_female_bout) with _ | ⟨b, t⟩
        · rw [hl] at hct; simp at hct
        · rw [hl] at hct
          rw [← hy, hl]
          simp only [modeBool]
          rw [if_pos hct]
          rfl
      · intro hcf
        rcases hl : (partsOf bouts u).map (fun p => p.is_female_bout) with _ | ⟨b, t⟩
        · rw [hl] at hcf; simp at hcf
        · rw [hl] at hcf
          rw [← hy, hl]
          simp only [modeBool]
          rw [if_neg (by omega), if_pos hcf]
          rfl
  · rw [if_neg hany] at hfk
    obtain ⟨hu, hx, hy⟩ : k = u ∧ (0 : Int) = x ∧ (0 : Int) = y :=
      ⟨congrArg Prod.fst hfk, congrArg (fun t => t.2.1) hfk, congrArg (fun t => t.2.2) hfk⟩
    rw [hu] at hany
    constructor
    · intro _
      exact ⟨hx.symm, hy.symm⟩
    · rintro ⟨p, hpl, hpu⟩
      exact absurd (List.any_eq_true.mpr ⟨p, hpl, decide_eq_true hpu⟩) hany

/-- C6, witness: the theorem instantiated on a one-fighter directory and
a single UFC women's bout — flags come out `1, 1`. -/
theorem claim_C6_witness :
    (fighterUrlW, (1 : Int), (1 : Int)) ∈ buildDimFighterFlags dirUrlsW boutsW ∧
      ((1 : Int) = 1 ↔ ∃ p ∈ longRows boutsW, p.fighter_url = fighterUrlW ∧
        p.is_ufc_bout = true) :=
  ⟨by decide,
    ((claim_C6 dirUrlsW boutsW fighterUrlW 1 1 (by decide)).2 (by decide)).1⟩

/-- The head surviving `dropWhile` fails the predicate. -/
theorem dropWhile_head_false {p : Char → Bool} :
    ∀ {l : List Char} {c : Char}, (l.dropWhile p).head? = some c → p c = false := by
  intro l
  induction l with
  | nil => intro c h; simp at h
  | cons a as ih =>
    intro c h
    by_cases hp : p a = true
    · rw [List.dropWhile_cons_of_pos hp] at h; exact ih h
    · rw [List.dropWhile_cons_of_neg hp] at h
      simp only [List.head?_cons, Option.some.injEq] at h
      rw [← h]
      simpa using hp

/-- `dropWhile` is the identity when the head fails the predicate. -/
theorem dropWhile_eq_self_of {p : Char → Bool} {l : List Char}
    (h : ∀ c, l.head? = some c → p c = false) : l.dropWhile p = l := by
  cases l with
  | nil => rfl
  | cons a as =>
    have ha := h a rfl
    simp [List.dropWhile_cons, ha]

/-- The last element surviving `trimEnd` fails the predicate. -/
theorem trimEnd_getLast_false {p : Char → Bool} {l : List Char} {c : Char}
    (h : (trimEnd p l).getLast? = some c) : p c = false := by
  unfold trimEnd at h
  rw [List.getLast?_reverse] at h
  exact dropWhile_head_false h

/-- `trimEnd` is the identity when the last element fails the predicate. -/
theorem trimEnd_eq_self_of {p : Char → Bool} {l : List Char}
    (h : ∀ c, l.getLast? = some c → p c = false) : trimEnd p l = l := by
  unfold trimEnd
  rw [dropWhile_eq_self_of, List.reverse_reverse]
  intro c hc
  rw [List.head?_reverse] at hc
  exact h c hc

/-- `trimEnd` only removes from the end. -/
theorem trimEnd_isInitial (p : Char → Bool) (l : List Char) : trimEnd p l <+: l := by
  have h2 : (l.reverse.dropWhile p).reverse <+: l.reverse.reverse :=
    List.reverse_prefix.mpr (List.dropWhile_suffix p)
  rw [List.reverse_reverse] at h2
  exact h2

/-- A nonempty prefix shares the head. -/
theorem head?_of_initial {l m : List Char} (h : l <+: m) (hne : l ≠ []) :
    l.head? = m.head? := by
  rcases h with ⟨t, rfl⟩
  cases l with
  | nil => exact absurd rfl hne
  | cons a as => rfl

/-- A nonempty suffix shares the last element. -/
theorem getLast?_of_suffix {l m : List Char} (h : l <:+ m) (hne : l ≠ []) :
    l.getLast? = m.getLast? := by
  rcases h with ⟨t, rfl⟩
  exact (List.getLast?_append_of_ne_nil t hne).symm

/-- The head of a stripped string is not whitespace. -/
theorem stripL_head_false {l : List Char} {c : Char}
    (h : (stripL l).head? = some c) : isSpaceC c = false := by
  unfold stripL at h
  have hne : trimEnd isSpaceC (l.dropWhile isSpaceC) ≠ [] := by
    intro hE; rw [hE] at h; simp at h
  rw [head?_of_initial (trimEnd_isInitial isSpaceC (l.dropWhile isSpaceC)) hne] at h
  exact dropWhile_head_false h

/-- The last element of a stripped string is not whitespace. -/
theorem stripL_getLast_false {l : List Char} {c : Char}
    (h : (stripL l).getLast? = some c) : isSpaceC c = false :=
  trimEnd_getLast_false h

/-- A string without surrounding whitespace strips to itself. -/
theorem stripL_eq_self_of {l : List Char}
    (h1 : ∀ c, l.head? = some c → isSpaceC c = false)
    (h2 : ∀ c, l.getLast? = some c → isSpaceC c = false) : stripL l = l := by
  unfold stripL
  rw [dropWhile_eq_self_of h1]
  exact trimEnd_eq_self_of h2

/-- Stripping is idempotent. -/
theorem stripL_idem (l : List Char) : stripL (stripL l) = stripL l :=
  stripL_eq_self_of (fun _ hc => stripL_head_false hc)
    (fun _ hc => stripL_getLast_false hc)

/-- A list starts with itself followed by anything. -/
theorem startsWithL_append_self (p t : List Char) : startsWithL p (p ++ t) = true := by
  induction p with
  | nil => rfl
  | cons a ps ih => simp [startsWithL, ih]

/-- A successful prefix test decomposes the list. -/
theorem startsWithL_drop : ∀ {p l : List Char}, startsWithL p l = true →
    p ++ l.drop p.length = l := by
  intro p
  induction p with
  | nil => intro l _; simp
  | cons a ps ih =>
    intro l h
    cases l with
    | nil => exact absurd h (by simp [startsWithL])
    | cons b bs =>
      simp only [startsWithL, Bool.and_eq_true, beq_iff_eq] at h
      obtain ⟨rfl, h2⟩ := h
      simp only [List.cons_append, List.length_cons, List.drop_succ_cons, List.cons.injEq,
        true_and]
      exact ih h2

/-- A prefix test survives appending to the right. -/
theorem startsWithL_append_right : ∀ {P l : List Char}, startsWithL P l = true →
    ∀ t, startsWithL P (l ++ t) = true := by
  intro P
  induction P with
  | nil => intro l _ t; rfl
  | cons a ps ih =>
    intro l h t
    cases l with
    | nil => exact absurd h (by simp [startsWithL])
    | cons b bs =>
      simp only [startsWithL, Bool.and_eq_true] at h
      simp only [List.cons_append, startsWithL, Bool.and_eq_true]
      exact ⟨h.1, ih h.2 t⟩

/-- Grafting: when the input is a host variant followed by a tail with no
trailing whitespace, `normL` replaces the variant by the base. -/
theorem normL_variant_append (v b t : List Char)
    (hv : v = hostA ∨ v = hostB ∨ v = hostC ∨ v = hostD)
    (ht : ∀ c, t.getLast? = some c → isSpaceC c = false) :
    normL (v ++ t) b = b ++ t := by
  have hstrip : stripL (v ++ t) = v ++ t := by
    apply stripL_eq_self_of
    · intro c hc
      have hh : (v ++ t).head? = some 'h' := by
        rcases hv with rfl | rfl | rfl | rfl <;> rfl
      rw [hh] at hc
      injection hc with hc
      rw [← hc]
      decide
    · intro c hc
      rcases hteq : t with _ | ⟨x, xs⟩
      · rw [hteq, List.append_nil] at hc
        have hm : v.getLast? = some 'm' := by
          rcases hv with rfl | rfl | rfl | rfl <;> rfl
        rw [hm] at hc
        injection hc with hc
        rw [← hc]
        decide
      · rw [List.getLast?_append_of_ne_nil v (by rw [hteq]; simp)] at hc
        exact ht c hc
  have hempty : (v ++ t).isEmpty = false := by
    rcases hv with rfl | rfl | rfl | rfl <;> rfl
  unfold normL
  rw [hstrip]
  rcases hv with rfl | rfl | rfl | rfl
  · simp only [hempty, Bool.false_eq_true, if_false, startsWithL_append_self, if_true,
      List.drop_left]
  · simp only [hempty, Bool.false_eq_true, if_false,
      show startsWithL hostA (hostB ++ t) = false from rfl,
      startsWithL_append_self, if_true, List.drop_left]
  · simp only [hempty, Bool.false_eq_true, if_false,
      show startsWithL hostA (hostC ++ t) = false from rfl,
      show startsWithL hostB (hostC ++ t) = false from rfl,
      startsWithL_append_self, if_true, List.drop_left]
  · simp only [hempty, Bool.false_eq_true, if_false,
      show startsWithL hostA (hostD ++ t) = false from rfl,
      show startsWithL hostB (hostD ++ t) = false from rfl,
      show startsWithL hostC (hostD ++ t) = false from rfl,
      startsWithL_append_self, if_true, List.drop_left]

/-- `normL` with a base drawn from the four variants is idempotent. -/
theorem normL_idem (u b : List Char)
    (hb : b = hostA ∨ b = hostB ∨ b = hostC ∨ b = hostD) :
    normL (normL u b) b = normL u b := by
  by_cases hemp : (stripL u).isEmpty = true
  · have hs : stripL u = [] := List.isEmpty_iff.mp hemp
    have h1 : normL u b = [] := by
      unfold normL; rw [hs]; rfl
    rw [h1]; rfl
  · have hempF : (stripL u).isEmpty = false := by
      simpa using hemp
    have hdropLast : ∀ n, (∀ c, ((stripL u).drop n).getLast? = some c → isSpaceC c = false) := by
      intro n c hc
      by_cases hd : (stripL u).drop n = []
      · rw [hd] at hc; simp at hc
      · rw [getLast?_of_suffix (List.drop_suffix _ _) hd] at hc
        exact stripL_getLast_false hc
    by_cases hA : startsWithL hostA (stripL u) = true
    · have h1 : normL u b = b ++ (stripL u).drop hostA.length := by
        unfold normL
        simp only [hempF, Bool.false_eq_true, if_false, hA, if_true]
      rw [h1]
      exact normL_variant_append b b _ hb (hdropLast _)
    · have hAF : startsWithL hostA (stripL u) = false := by simpa using hA
      by_cases hB : startsWithL hostB (stripL u) = true
      · have h1 : normL u b = b ++ (stripL u).drop hostB.length := by
          unfold normL
          simp only [hempF, Bool.false_eq_true, if_false, hAF, hB, if_true]
        rw [h1]
        exact normL_variant_append b b _ hb (hdropLast _)
      · have hBF : startsWithL hostB (stripL u) = false := by simpa using hB
        by_cases hC : startsWithL hostC (stripL u) = true
        · have h1 : normL u b = b ++ (stripL u).drop hostC.length := by
            unfold normL
            simp only [hempF, Bool.false_eq_true, if_false, hAF, hBF, hC, if_true]
          rw [h1]
          exact normL_variant_append b b _ hb (hdropLast _)
        · have hCF : startsWithL hostC (stripL u) = false := by simpa using hC
          by_cases hD : startsWithL hostD (stripL u) = true
          · have h1 : normL u b = b ++ (stripL u).drop hostD.length := by
              unfold normL
              simp only [hempF, Bool.false_eq_true, if_false, hAF, hBF, hCF, hD, if_true]
            rw [h1]
            exact normL_variant_append b b _ hb (hdropLast _)
          · have hDF : startsWithL hostD (stripL u) = false := by simpa using hD
            have h1 : normL u b = stripL u := by
              unfold normL
              simp only [hempF, Bool.false_eq_true, if_false, hAF, hBF, hCF, hDF]
            rw [h1]
            unfold normL
            rw [stripL_idem]
            simp only [hempF, Bool.false_eq_true, if_false, hAF, hBF, hCF, hDF]

/-- The canonical host never starts with either www pattern nor with the
https bare pattern. -/
theorem canonHost_not_wwwS (t : List Char) : startsWithL wwwHttps (canonHost ++ t) = false := rfl
theorem canonHost_not_wwwP (t : List Char) : startsWithL wwwHttp (canonHost ++ t) = false := rfl
theorem canonHost_not_bareS (t : List Char) : startsWithL bareHttps (canonHost ++ t) = false := rfl

/-- The www rewrite never produces a www-prefixed string. -/
theorem rwWww_not_www (x : List Char) :
    startsWithL wwwHttps (rwWww x) = false ∧ startsWithL wwwHttp (rwWww x) = false := by
  unfold rwWww
  by_cases h1 : startsWithL wwwHttps x = true
  · simp only [h1, if_true]
    exact ⟨canonHost_not_wwwS _, canonHost_not_wwwP _⟩
  · have h1F : startsWithL wwwHttps x = false := by simpa using h1
    by_cases h2 : startsWithL wwwHttp x = true
    · simp only [h1F, Bool.false_eq_true, if_false, h2, if_true]
      exact ⟨canonHost_not_wwwS _, canonHost_not_wwwP _⟩
    · have h2F : startsWithL wwwHttp x = false := by simpa using h2
      simp [h1F, h2F]

/-- The bare rewrite keeps a www-free string www-free. -/
theorem rwBare_not_www {z : List Char} (h1 : startsWithL wwwHttps z = false)
    (h2 : startsWithL wwwHttp z = false) :
    startsWithL wwwHttps (rwBare z) = false ∧ startsWithL wwwHttp (rwBare z) = false := by
  unfold rwBare
  by_cases hb1 : startsWithL bareHttps z = true
  · simp only [hb1, if_true]
    exact ⟨canonHost_not_wwwS _, canonHost_not_wwwP _⟩
  · have hb1F : startsWithL bareHttps z = false := by simpa using hb1
    by_cases hb2 : startsWithL bareHttp z = true
    · simp only [hb1F, Bool.false_eq_true, if_false, hb2, if_true]
      exact ⟨canonHost_not_wwwS _, canonHost_not_wwwP _⟩
    · have hb2F : startsWithL bareHttp z = false := by simpa using hb2
      simp [hb1F, hb2F, h1, h2]

/-- The bare rewrite never produces an https-bare-prefixed string. -/
theorem rwBare_not_bareS (z : List Char) : startsWithL bareHttps (rwBare z) = false := by
  unfold rwBare
  by_cases hb1 : startsWithL bareHttps z = true
  · simp only [hb1, if_true]
    exact canonHost_not_bareS _
  · have hb1F : startsWithL bareHttps z = false := by simpa using hb1
    by_cases hb2 : startsWithL bareHttp z = true
    · simp only [hb1F, Bool.false_eq_true, if_false, hb2, if_true]
      exact canonHost_not_bareS _
    · have hb2F : startsWithL bareHttp z = false := by simpa using hb2
      simp [hb1F, hb2F]

/-- Trimming the end of a string cannot create a prefix it lacked. -/
theorem trimEnd_not_startsWith {P : List Char} {p : Char → Bool} {y : List Char}
    (h : startsWithL P y = false) : startsWithL P (trimEnd p y) = false := by
  by_contra hcon
  have hT : startsWithL P (trimEnd p y) = true := by simpa using hcon
  rcases trimEnd_isInitial p y with ⟨rest, hr⟩
  rw [← hr, startsWithL_append_right hT rest] at h
  cases h

/-- The series canonicalizer leaves no trailing slash. -/
theorem canonSeriesL_no_trailing_slash (l : List Char) :
    ∀ ch, (canonSeriesL l).getLast? = some ch → (ch == '/') = false := by
  intro ch hch
  unfold canonSeriesL dropTrailSlash at hch
  exact trimEnd_getLast_false (p := fun c => c == '/') hch

/-- The series canonicalizer is idempotent on every string whose
canonical form is already whitespace-clean. -/
theorem canonSeriesL_idem_of (l : List Char)
    (h : cleanL (canonSeriesL l) = canonSeriesL l) :
    canonSeriesL (canonSeriesL l) = canonSeriesL l := by
  have cw : startsWithL wwwHttps (canonSeriesL l) = false ∧
      startsWithL wwwHttp (canonSeriesL l) = false := by
    unfold canonSeriesL dropTrailSlash
    constructor <;> apply trimEnd_not_startsWith
    · exact (rwBare_not_www (rwWww_not_www _).1 (rwWww_not_www _).2).1
    · exact (rwBare_not_www (rwWww_not_www _).1 (rwWww_not_www _).2).2
  have cb : startsWithL bareHttps (canonSeriesL l) = false := by
    unfold canonSeriesL dropTrailSlash
    apply trimEnd_not_startsWith
    exact rwBare_not_bareS _
  have hds : dropTrailSlash (canonSeriesL l) = canonSeriesL l := by
    unfold dropTrailSlash
    exact trimEnd_eq_self_of (canonSeriesL_no_trailing_slash l)
  show dropTrailSlash (rwBare (rwWww (cleanL (canonSeriesL l)))) = canonSeriesL l
  rw [h]
  have h1 : rwWww (canonSeriesL l) = canonSeriesL l := by
    unfold rwWww
    simp only [cw.1, cw.2, Bool.false_eq_true, if_false]
  rw [h1]
  by_cases h2 : startsWithL bareHttp (canonSeriesL l) = true
  · have h3 : rwBare (canonSeriesL l)
        = canonHost ++ (canonSeriesL l).drop bareHttp.length := by
      unfold rwBare
      simp only [cb, Bool.false_eq_true, if_false, h2, if_true]
    rw [h3, show canonHost = bareHttp from rfl, startsWithL_drop h2]
    exact hds
  · have h2F : startsWithL bareHttp (canonSeriesL l) = false := by simpa using h2
    have h3 : rwBare (canonSeriesL l) = canonSeriesL l := by
      unfold rwBare
      simp only [cb, h2F, Bool.false_eq_true, if_false]
    rw [h3]
    exact hds

/-- Translate membership in the four base variants to the list level. -/
theorem baseVariants_data {b : String} (hb : b ∈ baseVariants) :
    b.data = hostA ∨ b.data = hostB ∨ b.data = hostC ∨ b.data = hostD := by
  simp only [baseVariants, List.mem_cons, List.mem_singleton, List.not_mem_nil, or_false] at hb
  rcases hb with rfl | rfl | rfl | rfl
  · exact Or.inl rfl
  · exact Or.inr (Or.inl rfl)
  · exact Or.inr (Or.inr (Or.inl rfl))
  · exact Or.inr (Or.inr (Or.inr rfl))

/-- C4, amended: `normalize_ufcstats_url` is idempotent for EVERY input
when the base is one of the four variants; the builder-side series
canonicalizer is idempotent exactly on the strings whose canonical form
is already whitespace-clean (dropping trailing slashes can expose
trailing whitespace that only a second cleaning removes, see the
counterexample). -/
theorem claim_C4_amended :
    (∀ (u base : String), base ∈ baseVariants →
        normalizeUfcstatsUrl (normalizeUfcstatsUrl u base) base
          = normalizeUfcstatsUrl u base) ∧
      (∀ s : String, cleanCell (canonSeries s) = canonSeries s →
        canonSeries (canonSeries s) = canonSeries s) := by
  constructor
  · intro u base hbase
    exact congrArg String.mk (normL_idem u.data base.data (baseVariants_data hbase))
  · intro s h
    exact congrArg String.mk (canonSeriesL_idem_of s.data (congrArg String.data h))

/-- C4, amended, witness: instantiated on a www-https URL for the net
canonicalizer and on a trailing-slash fighter URL for the series
canonicalizer. -/
theorem claim_C4_amended_witness :
    ("http://ufcstats.com" : String) ∈ baseVariants ∧
      normalizeUfcstatsUrl
          (normalizeUfcstatsUrl "https://www.ufcstats.com/event-details/abc" "http://ufcstats.com")
          "http://ufcstats.com"
        = normalizeUfcstatsUrl "https://www.ufcstats.com/event-details/abc" "http://ufcstats.com" ∧
      cleanCell (canonSeries "https://www.ufcstats.com/fighter-details/abc/")
        = canonSeries "https://www.ufcstats.com/fighter-details/abc/" ∧
      canonSeries (canonSeries "https://www.ufcstats.com/fighter-details/abc/")
        = canonSeries "https://www.ufcstats.com/fighter-details/abc/" :=
  ⟨by decide,
    claim_C4_amended.1 "https://www.ufcstats.com/event-details/abc" "http://ufcstats.com"
      (by decide),
    by decide,
    claim_C4_amended.2 "https://www.ufcstats.com/fighter-details/abc/" (by decide)⟩

/-- C5, amended: a key built by `normalize_ufcstats_url` from any of the
four scheme/host variants of one path is the base followed by that path
unchanged — variants collapse to one key, but a trailing slash is NOT
stripped there (only the dim_fighter series canonicalizer removes
trailing slashes, second conjunct). -/
theorem claim_C5_amended :
    (∀ (v b p : String), v ∈ baseVariants → noTailP isSpaceC p.data →
        normalizeUfcstatsUrl (v ++ p) b = b ++ p) ∧
      (∀ s : String, (canonSeries s).data.getLast? ≠ some '/') := by
  constructor
  · intro v b p hv hp
    have h1 : normL (v ++ p).data b.data = b.data ++ p.data := by
      rw [String.data_append]
      exact normL_variant_append v.data b.data p.data (baseVariants_data hv) hp
    exact congrArg String.mk h1
  · intro s h
    exact absurd (canonSeriesL_no_trailing_slash s.data '/' h) (by decide)

/-- C5, amended, witness: the https variant of an event path grafted onto
the http base. -/
theorem claim_C5_amended_witness :
    ("https://ufcstats.com" : String) ∈ baseVariants ∧
      noTailP isSpaceC ("/event-details/abc" : String).data ∧
      normalizeUfcstatsUrl ("https://ufcstats.com" ++ "/event-details/abc") "http://ufcstats.com"
        = "http://ufcstats.com" ++ "/event-details/abc" :=
  ⟨by decide,
    by
      intro c hc
      rw [show ("/event-details/abc" : String).data.getLast? = some 'c' from rfl] at hc
      injection hc with hc
      rw [← hc]
      decide,
    claim_C5_amended.1 "https://ufcstats.com" "http://ufcstats.com" "/event-details/abc"
      (by decide)
      (by
        intro c hc
        rw [show ("/event-details/abc" : String).data.getLast? = some 'c' from rfl] at hc
        injection hc with hc
        rw [← hc]
        decide)⟩
